import Mathlib

/-! # Verification of the TOC scroll-sync logic of `src/templates/doc.tsx`

This file gives a shallow embedding of the client-side behaviour attached to
the table-of-contents panel of the documentation page template:

* the click interceptor registered on every TOC anchor
  (`doc.tsx`, lines 209–225),
* the throttled scroll handler that marks the "current" anchor active
  (`doc.tsx`, lines 227–245),
* the effect cleanup that detaches the listeners (lines 246–251),
* the `justifyContent` computation for the prev/next navigation row
  (lines 254–260, 286–303), and
* the conditional visibility of the TOC panel (lines 305–309).

The browser environment is modelled explicitly: the document is a map
from element ids to the `getBoundingClientRect().top` value of the matching
element (`none` when `document.getElementById` finds nothing), and effects
(history replacement, smooth scrolling, class mutation) are recorded in
result structures instead of being performed.  A thrown `URIError` is
modelled by a `threw` flag together with aborted processing, because the
listeners contain no `try`/`catch`.

Pixel coordinates (`getBoundingClientRect().top`, `scrollY()`,
`window.innerHeight`) are modelled as integers.  The only non-integer
expression in the source, the threshold test `top < window.innerHeight / 4`,
is an exact real-number comparison in JS (division of a double by 4 is
exact); over integer coordinates it is equivalent to
`4 * top < innerHeight`, which is the form the model uses so that every
definition evaluates inside the kernel.
-/

set_option autoImplicit false

namespace DocTsx

/-- JS `String.prototype.indexOf` restricted to a single-character needle:
the index of the first occurrence of `c` in `s`, and `-1` when `c` does not
occur (`anchor.href.indexOf('#')`, `doc.tsx` lines 212 and 232). -/
def jsIndexOf (s : String) (c : Char) : Int :=
  match s.toList.findIdx? (fun d => d = c) with
  | some i => (i : Int)
  | none => -1

/-- JS `String.prototype.slice(i)` for a non-negative start index: the suffix
of `s` from character position `i` (`anchor.href.slice(hashIndex + 1)`,
`doc.tsx` lines 213 and 233; there `i = hashIndex + 1 ≥ 0` always, since
`indexOf` returns at least `-1`). -/
def jsSliceFrom (s : String) (i : Int) : String :=
  String.mk (s.toList.drop i.toNat)

/-- Value of a single hexadecimal digit, `none` for a non-hex character.
Code points: digits are 48–57, uppercase `A`–`F` are 65–70 (value =
code − 55), lowercase `a`–`f` are 97–102 (value = code − 87). -/
def hexDigit (c : Char) : Option Nat :=
  let n := c.toNat
  if 48 ≤ n ∧ n ≤ 57 then some (n - 48)
  else if 65 ≤ n ∧ n ≤ 70 then some (n - 55)
  else if 97 ≤ n ∧ n ≤ 102 then some (n - 87)
  else none

/-- Character-list worker for `decodeURIComponent`: decodes `%XX` escapes and
fails (`none`) when a `%` is not followed by two hexadecimal digits. -/
def percentDecode : List Char → Option (List Char)
  | [] => some []
  | '%' :: c1 :: c2 :: rest =>
    match hexDigit c1, hexDigit c2 with
    | some hi, some lo => (percentDecode rest).map (fun l => Char.ofNat (16 * hi + lo) :: l)
    | _, _ => none
  | '%' :: _ => none
  | c :: rest => (percentDecode rest).map (fun l => c :: l)

/-- Modelled from the spec: the ECMAScript builtin `decodeURIComponent`
(a host function, not part of `src/`), which the spec describes as decoding
the fragment "as a percent-encoded heading identifier" and which throws a
`URIError` on a malformed escape sequence.  The throw is modelled as `none`.
Multi-byte UTF-8 sequences are decoded byte-wise, which is enough for every
property below (none depends on the exact decoded text of a multi-byte
escape). -/
def decodeURIComponent (s : String) : Option String :=
  (percentDecode s.toList).map String.mk

/-- The fragment a click/scroll handler extracts from an anchor's `href`:
`href.slice(href.indexOf('#') + 1)` (`doc.tsx` lines 212–213 and 232–233).
When `href` contains no `'#'`, `indexOf` yields `-1` and the slice starts at
`0`, so the whole `href` is used. -/
def clickHash (href : String) : String :=
  jsSliceFrom href (jsIndexOf href '#' + 1)

/-- Observable outcome of one invocation of the click interceptor
(`doc.tsx` lines 209–222).  `historyReplacedWith` records the single
`window.history.replaceState` url (`none` when no history call was made; the
handler never pushes an entry), `scrolledTo` the `y` passed to the single
smooth `scrollTo` call (`none` when no scroll was initiated), and `threw`
whether a `URIError` escaped the listener. -/
structure ClickOutcome where
  preventedDefault : Bool
  historyReplacedWith : Option String
  scrolledTo : Option Int
  threw : Bool
deriving DecidableEq, Repr

/-- The click interceptor (`doc.tsx` lines 209–222).  `doc` is
`document.getElementById` composed with `getBoundingClientRect().top`
(`none` when the id resolves to no element), `sy` is the current `scrollY()`.
`e.preventDefault()` runs first, unconditionally; then the fragment is
sliced out of the href and decoded (a malformed escape throws, so nothing
after the decode runs); a missing element is a silent no-op; otherwise the
history entry is replaced with `pathname + search + '#' + hash` and a smooth
scroll to `scrollY() + top - 102` is initiated. -/
def onClick (doc : String → Option Int) (sy : Int) (pathname search : String)
    (href : String) : ClickOutcome :=
  let hash := clickHash href
  match decodeURIComponent hash with
  | none =>
    { preventedDefault := true, historyReplacedWith := none,
      scrolledTo := none, threw := true }
  | some id =>
    match doc id with
    | none =>
      { preventedDefault := true, historyReplacedWith := none,
        scrolledTo := none, threw := false }
    | some top =>
      { preventedDefault := true,
        historyReplacedWith := some (pathname ++ search ++ "#" ++ hash),
        scrolledTo := some (sy + top - 102),
        threw := false }

/-! ## The throttled scroll handler (`doc.tsx` lines 227–245)

The handler body iterates over the anchors found under the TOC root.  For
each anchor it extracts and decodes the fragment (a malformed escape throws
a `URIError`, which aborts the whole `_.forEach` — there is no `try`/`catch`
— leaving later anchors untouched and skipping the final `classList.add`),
resolves the target element (`if (!el) return` skips the anchor entirely:
in particular its `active` class is *not* removed), removes the anchor's
`active` class, and records the anchor as the current candidate when
`top < window.innerHeight / 4`.  After the loop, the last recorded candidate
(if any) gets the `active` class. -/

/-- A TOC anchor as the scroll handler sees it: its `href` attribute and
whether it currently carries the `active` class. -/
structure ScrollAnchor where
  href : String
  active : Bool
deriving DecidableEq, Repr

/-- Whether an anchor's decoded fragment resolves to an element of `doc`
(`document.getElementById(id)` succeeding, `doc.tsx` line 234); `false` also
when the fragment does not decode. -/
def resolvesB (doc : String → Option Int) (a : ScrollAnchor) : Bool :=
  match decodeURIComponent (clickHash a.href) with
  | none => false
  | some id => (doc id).isSome

/-- Whether an anchor qualifies as a candidate for the `active` class: its
decoded fragment resolves to an element whose top offset satisfies
`top < window.innerHeight / 4` (`doc.tsx` line 238), written here in the
equivalent integer form `4 * top < vh`. -/
def qualifiesB (doc : String → Option Int) (vh : Int) (a : ScrollAnchor) : Bool :=
  match decodeURIComponent (clickHash a.href) with
  | none => false
  | some id =>
    match doc id with
    | none => false
    | some top => decide (4 * top < vh)

/-- Model of `classList.add('active')` on the anchor at position `i`
(`doc.tsx` line 242); positions past the end are left unchanged. -/
def setActive : List ScrollAnchor → Nat → List ScrollAnchor
  | [], _ => []
  | a :: rest, 0 => { a with active := true } :: rest
  | a :: rest, i + 1 => a :: setActive rest i

/-- One step of the `_.forEach` loop of `doc.tsx` lines 231–241, for the
anchor list starting at absolute index `i` with current candidate `act`
(the JS `activeAnchor`, tracked by index).  Returns the anchors after the
loop, the final candidate, and whether a `URIError` was thrown.  A throw
aborts the iteration: the remaining anchors keep their classes and the
caller must skip the final `classList.add`. -/
def scrollLoop (doc : String → Option Int) (vh : Int) :
    List ScrollAnchor → Nat → Option Nat → List ScrollAnchor × Option Nat × Bool
  | [], _, act => ([], act, false)
  | a :: rest, i, act =>
    match decodeURIComponent (clickHash a.href) with
    | none => (a :: rest, act, true)
    | some id =>
      match doc id with
      | none =>
        let r := scrollLoop doc vh rest (i + 1) act
        (a :: r.1, r.2)
      | some top =>
        let a2 : ScrollAnchor := { a with active := false }
        let act2 := if 4 * top < vh then some i else act
        let r := scrollLoop doc vh rest (i + 1) act2
        (a2 :: r.1, r.2)

/-- One invocation of the body of the throttled scroll handler
(`doc.tsx` lines 227–243), given a non-null TOC root whose anchors are
`anchors`: run the loop, then — unless a `URIError` aborted it — add the
`active` class to the last candidate.  Returns the anchors afterwards and
whether the invocation threw. -/
def onScrollRun (doc : String → Option Int) (vh : Int)
    (anchors : List ScrollAnchor) : List ScrollAnchor × Bool :=
  let r := scrollLoop doc vh anchors 0 none
  if r.2.2 then (r.1, true)
  else
    match r.2.1 with
    | none => (r.1, false)
    | some i => (setActive r.1 i, false)

/-- The `tocEl.current === null` guard of `doc.tsx` line 228: a null ref
makes the handler return before touching anything. -/
def onScrollHandler (doc : String → Option Int) (vh : Int)
    (tocRef : Option (List ScrollAnchor)) :
    Option (List ScrollAnchor) × Bool :=
  match tocRef with
  | none => (none, false)
  | some anchors =>
    let r := onScrollRun doc vh anchors
    (some r.1, r.2)

/-! Specification-side reformulations of the loop, used to state and prove
the claims; `scrollLoop` is related to them below. -/

/-- What the loop does to a single anchor's classes when it does not throw:
anchors with a resolved target lose the `active` class, unresolved ones are
left untouched (`doc.tsx` lines 235–237). -/
def clearOne (doc : String → Option Int) (a : ScrollAnchor) : ScrollAnchor :=
  if resolvesB doc a then { a with active := false } else a

/-- The class-clearing part of a non-throwing loop pass. -/
def clearList (doc : String → Option Int) (anchors : List ScrollAnchor) :
    List ScrollAnchor :=
  anchors.map (clearOne doc)

/-- The candidate tracking of the loop in isolation: fold over the anchors,
replacing the candidate by the current absolute index whenever the anchor
qualifies. -/
def lastQualAux (doc : String → Option Int) (vh : Int) :
    List ScrollAnchor → Nat → Option Nat → Option Nat
  | [], _, acc => acc
  | a :: rest, i, acc =>
    lastQualAux doc vh rest (i + 1) (if qualifiesB doc vh a then some i else acc)

/-- Structural version of the candidate tracking: the index of the last
qualifying anchor of the list, if any. -/
def lastQualSpec (doc : String → Option Int) (vh : Int) :
    List ScrollAnchor → Option Nat
  | [] => none
  | a :: rest =>
    match lastQualSpec doc vh rest with
    | some k => some (k + 1)
    | none => if qualifiesB doc vh a then some 0 else none

/-! ## Lemmas relating the loop to its specification-side reformulation -/

/-- When every anchor's fragment decodes, the loop does not throw, its class
mutations are exactly `clearList`, and its candidate tracking is exactly
`lastQualAux`. -/
theorem scrollLoop_no_throw (doc : String → Option Int) (vh : Int)
    (l : List ScrollAnchor) :
    ∀ (i : Nat) (acc : Option Nat),
      (∀ a ∈ l, (decodeURIComponent (clickHash a.href)).isSome = true) →
      scrollLoop doc vh l i acc = (clearList doc l, lastQualAux doc vh l i acc, false) := by
  induction l with
  | nil => intro i acc _; rfl
  | cons a rest ih =>
    intro i acc hdec
    have ha := hdec a (by simp)
    have hrest : ∀ b ∈ rest, (decodeURIComponent (clickHash b.href)).isSome = true :=
      fun b hb => hdec b (by simp [hb])
    cases hd : decodeURIComponent (clickHash a.href) with
    | none => rw [hd] at ha; simp at ha
    | some id =>
      cases hel : doc id with
      | none =>
        simp only [scrollLoop, hd, hel, clearList, List.map_cons, lastQualAux, qualifiesB,
          clearOne, resolvesB]
        rw [ih (i + 1) acc hrest]
        simp [clearList]
      | some top =>
        simp only [scrollLoop, hd, hel, clearList, List.map_cons, lastQualAux, qualifiesB,
          clearOne, resolvesB]
        rw [ih (i + 1) (if 4 * top < vh then some i else acc) hrest]
        simp [clearList]

/-- Rewriting of `lastQualAux` in terms of the structural `lastQualSpec`. -/
theorem lastQualAux_eq (doc : String → Option Int) (vh : Int)
    (l : List ScrollAnchor) :
    ∀ (i : Nat) (acc : Option Nat),
      lastQualAux doc vh l i acc =
        (match lastQualSpec doc vh l with
         | some k => some (i + k)
         | none => acc) := by
  induction l with
  | nil => intro i acc; rfl
  | cons a rest ih =>
    intro i acc
    simp only [lastQualAux, lastQualSpec]
    rw [ih (i + 1)]
    cases h : lastQualSpec doc vh rest with
    | some k => simp; omega
    | none => by_cases hq : qualifiesB doc vh a <;> simp [hq]

/-- A non-throwing invocation of the handler body: clear the resolvable
anchors' classes, then mark the last qualifying index, if any. -/
theorem onScrollRun_no_throw (doc : String → Option Int) (vh : Int)
    (anchors : List ScrollAnchor)
    (hdec : ∀ a ∈ anchors, (decodeURIComponent (clickHash a.href)).isSome = true) :
    onScrollRun doc vh anchors =
      ((match lastQualSpec doc vh anchors with
        | none => clearList doc anchors
        | some k => setActive (clearList doc anchors) k), false) := by
  unfold onScrollRun
  rw [scrollLoop_no_throw doc vh anchors 0 none hdec, lastQualAux_eq]
  cases h : lastQualSpec doc vh anchors <;> simp [h]

/-- The function `lastQualSpec` returns `none` exactly when no anchor qualifies. -/
theorem lastQualSpec_eq_none_iff (doc : String → Option Int) (vh : Int)
    (l : List ScrollAnchor) :
    lastQualSpec doc vh l = none ↔ ∀ a ∈ l, qualifiesB doc vh a = false := by
  induction l with
  | nil => simp [lastQualSpec]
  | cons a rest ih =>
    simp only [lastQualSpec]
    cases h : lastQualSpec doc vh rest with
    | some k =>
      simp only []
      constructor
      · intro hc; exact absurd hc (by simp)
      · intro hall
        exfalso
        have : lastQualSpec doc vh rest = none :=
          ih.mpr (fun b hb => hall b (by simp [hb]))
        rw [h] at this; exact Option.noConfusion this
    | none =>
      have hrest := ih.mp h
      by_cases hq : qualifiesB doc vh a = true
      · simp only [hq, if_true]
        constructor
        · intro hc; exact absurd hc (by simp)
        · intro hall
          have := hall a (by simp)
          rw [hq] at this; exact absurd this (by simp)
      · have hq' : qualifiesB doc vh a = false := by
          cases hqa : qualifiesB doc vh a
          · rfl
          · exact absurd hqa hq
        simp only [hq', if_false, Bool.false_eq_true]
        constructor
        · intro _ b hb
          rcases List.mem_cons.mp hb with hb | hb
          · rw [hb]; exact hq'
          · exact hrest b hb
        · intro _; trivial

/-- The function `lastQualSpec` returns `some k` exactly when the anchor at `k` qualifies
and no later anchor does. -/
theorem lastQualSpec_eq_some_iff (doc : String → Option Int) (vh : Int)
    (l : List ScrollAnchor) :
    ∀ k : Nat, lastQualSpec doc vh l = some k ↔
      (l[k]?.any (qualifiesB doc vh) = true ∧
        ∀ m, k < m → l[m]?.any (qualifiesB doc vh) = false) := by
  induction l with
  | nil => intro k; simp [lastQualSpec]
  | cons a rest ih =>
    intro k
    simp only [lastQualSpec]
    cases hr : lastQualSpec doc vh rest with
    | some j =>
      have hj := (ih j).mp hr
      constructor
      · intro h
        have hk : k = j + 1 := (Option.some.inj h).symm
        subst hk
        refine ⟨by simpa using hj.1, ?_⟩
        intro m hm
        cases m with
        | zero => omega
        | succ m' =>
          rw [List.getElem?_cons_succ]
          exact hj.2 m' (by omega)
      · rintro ⟨h1, h2⟩
        cases k with
        | zero =>
          exfalso
          have hz := h2 (j + 1) (by omega)
          rw [List.getElem?_cons_succ] at hz
          rw [hz] at hj
          exact absurd hj.1 (by simp)
        | succ k' =>
          have hk' : lastQualSpec doc vh rest = some k' := by
            refine (ih k').mpr ⟨by simpa using h1, ?_⟩
            intro m hm
            have := h2 (m + 1) (by omega)
            rwa [List.getElem?_cons_succ] at this
          rw [hr] at hk'
          rw [Option.some.inj hk']
    | none =>
      have hrest := (lastQualSpec_eq_none_iff doc vh rest).mp hr
      have hrestIdx : ∀ m : Nat, rest[m]?.any (qualifiesB doc vh) = false := by
        intro m
        cases hg : rest[m]? with
        | none => simp
        | some b => simp [hrest b (List.getElem?_mem hg)]
      by_cases hq : qualifiesB doc vh a = true
      · simp only [hq, if_true]
        constructor
        · intro h
          have hk : k = 0 := (Option.some.inj h).symm
          subst hk
          refine ⟨by simp [hq], ?_⟩
          intro m hm
          cases m with
          | zero => omega
          | succ m' => rw [List.getElem?_cons_succ]; exact hrestIdx m'
        · rintro ⟨h1, h2⟩
          cases k with
          | zero => rfl
          | succ k' =>
            exfalso
            rw [List.getElem?_cons_succ] at h1
            rw [hrestIdx k'] at h1
            exact absurd h1 (by simp)
      · have hq' : qualifiesB doc vh a = false := by
          cases hqa : qualifiesB doc vh a
          · rfl
          · exact absurd hqa hq
        simp only [hq', if_false, Bool.false_eq_true]
        constructor
        · intro h; exact absurd h (by simp)
        · rintro ⟨h1, h2⟩
          exfalso
          cases k with
          | zero =>
            rw [List.getElem?_cons_zero] at h1
            rw [Option.any_some, hq'] at h1
            exact absurd h1 (by simp)
          | succ k' =>
            rw [List.getElem?_cons_succ] at h1
            rw [hrestIdx k'] at h1
            exact absurd h1 (by simp)

/-- A pass of `classList.remove('active')` leaves an anchor inactive whenever an
active anchor must be resolvable. -/
theorem clearOne_active_false (doc : String → Option Int) (a : ScrollAnchor)
    (ha : a.active = true → resolvesB doc a = true) :
    (clearOne doc a).active = false := by
  unfold clearOne
  by_cases h : resolvesB doc a = true
  · simp [h]
  · have : a.active = false := by
      cases hact : a.active
      · rfl
      · exact absurd (ha hact) h
    simp [h, this]

/-- Entries of `clearList` are inactive whenever every initially active
anchor resolves. -/
theorem clearList_inactive (doc : String → Option Int)
    (anchors : List ScrollAnchor)
    (hres : ∀ a ∈ anchors, a.active = true → resolvesB doc a = true) (i : Nat) :
    ((clearList doc anchors)[i]?.any (fun a => a.active)) = false := by
  unfold clearList
  rw [List.getElem?_map]
  cases hg : anchors[i]? with
  | none => simp
  | some a => simp [clearOne_active_false doc a (hres a (List.getElem?_mem hg))]

/-- Index view of `setActive`: position `j` gains the class, the others are
untouched. -/
theorem setActive_getElem? (l : List ScrollAnchor) :
    ∀ (j i : Nat), (setActive l j)[i]? =
      (if i = j then (l[i]?).map (fun a => { a with active := true }) else l[i]?) := by
  induction l with
  | nil => intro j i; cases j <;> simp [setActive]
  | cons a rest ih =>
    intro j i
    cases j with
    | zero =>
      cases i with
      | zero => simp [setActive]
      | succ i' => simp [setActive]
    | succ j' =>
      cases i with
      | zero => simp [setActive]
      | succ i' => simp [setActive, ih j' i']

/-- Marking one position of an all-inactive list leaves at most one active
anchor. -/
theorem countP_setActive_le_one (l : List ScrollAnchor)
    (hl : ∀ a ∈ l, a.active = false) :
    ∀ j : Nat, ((setActive l j).countP (fun a => a.active)) ≤ 1 := by
  induction l with
  | nil => intro j; simp [setActive]
  | cons a rest ih =>
    intro j
    have ha : a.active = false := hl a (by simp)
    have hrest : ∀ b ∈ rest, b.active = false := fun b hb => hl b (by simp [hb])
    cases j with
    | zero =>
      have hz : rest.countP (fun a => a.active) = 0 :=
        List.countP_eq_zero.mpr (by intro b hb; simp [hrest b hb])
      simp [setActive, List.countP_cons, hz]
    | succ j' =>
      simp only [setActive, List.countP_cons, ha]
      have := ih hrest j'
      simp
      omega

/-! ## Fixtures for witnesses and counterexamples -/

/-- Document of the spec's worked example: headings `a`–`d` at viewport
offsets `[500, 50, -10, 300]`. -/
def docOffsets : String → Option Int := fun id =>
  if id = "a" then some 500
  else if id = "b" then some 50
  else if id = "c" then some (-10)
  else if id = "d" then some 300
  else none

/-- TOC anchors of the spec's worked example, none of them active. -/
def tocAnchors : List ScrollAnchor :=
  [⟨"#a", false⟩, ⟨"#b", false⟩, ⟨"#c", false⟩, ⟨"#d", false⟩]

/-- Document resolving only the id `b`, at offset `-10`. -/
def docOnlyB : String → Option Int := fun id =>
  if id = "b" then some (-10) else none

/-! ## Claim theorems for the scroll handler -/

/-- C1: on a scroll-handler invocation (all fragments well-formed, no
anchor initially active), the anchor that ends up marked active is exactly
the last anchor in document order whose target heading's top offset is
strictly below one quarter of the viewport height (`4·top < innerHeight`),
anchors with unresolvable targets being skipped; if no anchor qualifies,
no anchor is marked active. -/
theorem onScroll_marks_last_qualifying (doc : String → Option Int) (vh : Int)
    (anchors : List ScrollAnchor)
    (hdec : ∀ a ∈ anchors, (decodeURIComponent (clickHash a.href)).isSome = true)
    (hclean : ∀ a ∈ anchors, a.active = false) (i : Nat) :
    ((onScrollRun doc vh anchors).1[i]?.any (fun a => a.active)) = true ↔
      (anchors[i]?.any (qualifiesB doc vh) = true ∧
        ∀ m, m < anchors.length → i < m →
          anchors[m]?.any (qualifiesB doc vh) = false) := by
  have hres : ∀ a ∈ anchors, a.active = true → resolvesB doc a = true := by
    intro a ha hact
    exact absurd (hclean a ha) (by simp [hact])
  rw [onScrollRun_no_throw doc vh anchors hdec]
  cases hspec : lastQualSpec doc vh anchors with
  | none =>
    have hall := (lastQualSpec_eq_none_iff doc vh anchors).mp hspec
    simp only
    constructor
    · intro h
      rw [clearList_inactive doc anchors hres i] at h
      exact absurd h (by simp)
    · rintro ⟨h1, h2⟩
      exfalso
      cases hg : anchors[i]? with
      | none => rw [hg] at h1; exact absurd h1 (by simp)
      | some a =>
        rw [hg] at h1
        rw [Option.any_some, hall a (List.getElem?_mem hg)] at h1
        exact absurd h1 (by simp)
  | some k =>
    have hk := (lastQualSpec_eq_some_iff doc vh anchors k).mp hspec
    have hklen : k < anchors.length := by
      cases hg : anchors[k]? with
      | none => rw [hg] at hk; exact absurd hk.1 (by simp)
      | some a => exact (List.getElem?_eq_some_iff.mp hg).1
    simp only
    rw [setActive_getElem?]
    by_cases hik : i = k
    · subst hik
      rw [if_pos rfl]
      unfold clearList
      rw [List.getElem?_map]
      cases hg : anchors[i]? with
      | none => rw [hg] at hk; exact absurd hk.1 (by simp)
      | some a =>
        rw [hg, Option.any_some] at hk
        simp only [Option.map_some', Option.any_some]
        constructor
        · intro _
          exact ⟨hk.1, fun m _ hm => hk.2 m hm⟩
        · intro _; trivial
    · rw [if_neg hik]
      constructor
      · intro h
        rw [clearList_inactive doc anchors hres i] at h
        exact absurd h (by simp)
      · rintro ⟨h1, h2⟩
        exfalso
        rcases Nat.lt_or_ge i k with hik2 | hik2
        · have := h2 k hklen hik2
          rw [this] at hk
          exact absurd hk.1 (by simp)
        · have hki : k < i := lt_of_le_of_ne hik2 fun he => hik he.symm
          rw [hk.2 i hki] at h1
          exact absurd h1 (by simp)

/-- C1, witness: on the spec's worked example — headings at viewport
offsets `[500, 50, -10, 300]` with `innerHeight = 600` (quarter-height
threshold `150`) — the anchor at index 2 (offset `-10`) is the one marked
active. -/
theorem onScroll_marks_last_qualifying_witness :
    ((onScrollRun docOffsets 600 tocAnchors).1[2]?.any (fun a => a.active)) = true :=
  (onScroll_marks_last_qualifying docOffsets 600 tocAnchors (by decide) (by decide) 2).mpr
    (by decide)

/-- C2, counterexample: the handler does *not* clear the active marker
from anchors whose target id resolves to no element (`if (!el) return` comes
before `classList.remove`, `doc.tsx` lines 235–237).  Starting from a state
where the anchor `#a` (unresolvable target) is active, an invocation marks
`#b` active as well, leaving two active anchors — so "at most one anchor
bears the active marker after any invocation, for any set of anchors" is
false. -/
theorem onScroll_stale_active_counterexample :
    ¬ (((onScrollRun docOnlyB 600 [⟨"#a", true⟩, ⟨"#b", false⟩]).1.countP
        (fun a => a.active)) ≤ 1) := by decide

/-- C2, amended: the handler clears the active marker only from anchors
whose target id resolves.  Provided every anchor bearing the active marker
beforehand has a resolvable target (and every fragment decodes, so the loop
is not aborted by a `URIError`), at most one anchor bears the active marker
after the invocation. -/
theorem onScroll_at_most_one_active (doc : String → Option Int) (vh : Int)
    (anchors : List ScrollAnchor)
    (hdec : ∀ a ∈ anchors, (decodeURIComponent (clickHash a.href)).isSome = true)
    (hres : ∀ a ∈ anchors, a.active = true → resolvesB doc a = true) :
    ((onScrollRun doc vh anchors).1.countP (fun a => a.active)) ≤ 1 := by
  rw [onScrollRun_no_throw doc vh anchors hdec]
  have hinactive : ∀ b ∈ clearList doc anchors, b.active = false := by
    intro b hb
    obtain ⟨a, ha, rfl⟩ := List.mem_map.mp hb
    exact clearOne_active_false doc a (hres a ha)
  cases hspec : lastQualSpec doc vh anchors with
  | none =>
    simp only
    have hz : (clearList doc anchors).countP (fun a => a.active) = 0 :=
      List.countP_eq_zero.mpr (by intro b hb; simp [hinactive b hb])
    omega
  | some k =>
    simp only
    exact countP_setActive_le_one (clearList doc anchors) hinactive k

/-- C2, witness: on a state where the single active anchor `#b` has a
resolvable target, the invocation leaves at most one active anchor. -/
theorem onScroll_at_most_one_active_witness :
    ((onScrollRun docOnlyB 600 [⟨"#b", true⟩]).1.countP (fun a => a.active)) ≤ 1 :=
  onScroll_at_most_one_active docOnlyB 600 [⟨"#b", true⟩] (by decide) (by decide)

/-! ## Claim theorems for the click interceptor -/

/-- C3: a click on an anchor whose fragment decodes to an id with no
matching element in the document produces no scroll, no history change and
no thrown error — a silent no-op (default navigation is still prevented,
which the code does unconditionally first). -/
theorem onClick_unresolved_noop (doc : String → Option Int) (sy : Int)
    (pathname search href id : String)
    (hd : decodeURIComponent (clickHash href) = some id)
    (hel : doc id = none) :
    onClick doc sy pathname search href =
      { preventedDefault := true, historyReplacedWith := none,
        scrolledTo := none, threw := false } := by
  simp [onClick, hd, hel]

/-- C3, witness: clicking `#nope` in a document containing only the
heading `b` is a silent no-op. -/
theorem onClick_unresolved_noop_witness :
    onClick docOnlyB 0 "/doc" "" "#nope" =
      { preventedDefault := true, historyReplacedWith := none,
        scrolledTo := none, threw := false } :=
  onClick_unresolved_noop docOnlyB 0 "/doc" "" "#nope" "nope" (by decide) (by decide)

/-- C4: a click on an anchor whose fragment resolves prevents default
navigation, replaces (never pushes) exactly one history entry with
`path + search + '#' + fragment`, and initiates exactly one smooth scroll to
`scrollY + top - 102`. -/
theorem onClick_resolved_effects (doc : String → Option Int) (sy : Int)
    (pathname search href id : String) (top : Int)
    (hd : decodeURIComponent (clickHash href) = some id)
    (hel : doc id = some top) :
    onClick doc sy pathname search href =
      { preventedDefault := true,
        historyReplacedWith := some (pathname ++ search ++ "#" ++ clickHash href),
        scrolledTo := some (sy + top - 102),
        threw := false } := by
  simp [onClick, hd, hel]

/-- C4, witness: clicking `#b` (offset `-10`) at scroll position 200 on
`/doc?v=1` replaces the history entry with `/doc?v=1#b` and scrolls to
`200 + (-10) - 102 = 88`. -/
theorem onClick_resolved_effects_witness :
    onClick docOnlyB 200 "/doc" "?v=1" "#b" =
      { preventedDefault := true, historyReplacedWith := some "/doc?v=1#b",
        scrolledTo := some 88, threw := false } := by
  rw [onClick_resolved_effects docOnlyB 200 "/doc" "?v=1" "#b" "b" (-10)
    (by decide) (by decide)]
  decide

/-- C5, counterexample: the listeners contain no `try`/`catch`, so an
anchor href whose fragment is the malformed percent sequence `%` makes
`decodeURIComponent` throw a `URIError` that propagates out of the click
listener; in the scroll handler the same throw aborts the `_.forEach` over
the anchors.  This refutes "no exception propagates out of the click or
scroll listeners for any anchor href". -/
theorem listeners_throw_counterexample :
    (onClick (fun _ => none) 0 "" "" "#%").threw = true ∧
    (onScrollRun (fun _ => none) 600 [⟨"#%", false⟩, ⟨"#b", true⟩]).2 = true := by
  decide

/-- C5, amended: when every fragment is a well-formed percent-encoded
sequence (so `decodeURIComponent` succeeds), no exception propagates out of
either listener; a malformed fragment, however, throws, and in the scroll
handler the throw aborts the processing of the remaining anchors. -/
theorem listeners_no_throw_wellformed (doc : String → Option Int)
    (vh sy : Int) (pathname search href : String)
    (anchors : List ScrollAnchor)
    (hhref : (decodeURIComponent (clickHash href)).isSome = true)
    (hdec : ∀ a ∈ anchors, (decodeURIComponent (clickHash a.href)).isSome = true) :
    (onClick doc sy pathname search href).threw = false ∧
    (onScrollRun doc vh anchors).2 = false := by
  constructor
  · cases hd : decodeURIComponent (clickHash href) with
    | none => rw [hd] at hhref; simp at hhref
    | some id =>
      cases hel : doc id with
      | none => simp [onClick, hd, hel]
      | some top => simp [onClick, hd, hel]
  · rw [onScrollRun_no_throw doc vh anchors hdec]

/-- C5, amended, witness: with the well-formed fragment `#b` neither
listener throws. -/
theorem listeners_no_throw_wellformed_witness :
    (onClick docOnlyB 0 "/doc" "" "#b").threw = false ∧
    (onScrollRun docOnlyB 600 [⟨"#b", false⟩]).2 = false :=
  listeners_no_throw_wellformed docOnlyB 600 0 "/doc" "" "#b" [⟨"#b", false⟩]
    (by decide) (by decide)

/-- C10: a click on an anchor whose href contains no `'#'` still
prevents default navigation; `indexOf` returns `-1`, so the slice starts at
`0` and the entire href is used as the fragment whose decoding is looked up
as the element id; when no element matches, the click performs no history
change and no scroll. -/
theorem onClick_no_hash (doc : String → Option Int) (sy : Int)
    (pathname search href : String)
    (hno : '#' ∉ href.toList) :
    clickHash href = href ∧
    ∀ id, decodeURIComponent href = some id → doc id = none →
      onClick doc sy pathname search href =
        { preventedDefault := true, historyReplacedWith := none,
          scrolledTo := none, threw := false } := by
  have hidx : jsIndexOf href '#' = -1 := by
    unfold jsIndexOf
    have : href.toList.findIdx? (fun d => d = '#') = none := by
      rw [List.findIdx?_eq_none_iff]
      intro c hc
      have : ¬ c = '#' := fun he => hno (he ▸ hc)
      simp [this]
    rw [this]
  have hhash : clickHash href = href := by
    unfold clickHash jsSliceFrom
    rw [hidx]
    rfl
  refine ⟨hhash, ?_⟩
  intro id hd hel
  rw [← hhash] at hd
  simp [onClick, hd, hel]

/-- C10, witness: clicking the hashless href `broken` in a document with
no matching element is a prevented-default silent no-op, with the whole
href used as the fragment. -/
theorem onClick_no_hash_witness :
    clickHash "broken" = "broken" ∧
    onClick (fun _ => none) 0 "/doc" "" "broken" =
      { preventedDefault := true, historyReplacedWith := none,
        scrolledTo := none, threw := false } := by
  obtain ⟨h1, h2⟩ := onClick_no_hash (fun _ => none) 0 "/doc" "" "broken" (by decide)
  exact ⟨h1, h2 "broken" (by decide) rfl⟩

/-! ## The throttle (`_.throttle(..., 100)`, `doc.tsx` lines 227 and 243) -/

/-- Modelled from the spec: lodash's `_.throttle(fn, wait)` is not part of
`src/`; the spec describes it as rate-limiting the handler to "at most once
per 100ms", calls inside a window being coalesced.  `throttleAux wait last`
emits, from the (millisecond) times of the remaining scroll events, the
times of the leading-edge invocations: an event invokes the handler exactly
when at least `wait` ms have passed since the previous invocation at
`last`.  (Lodash's trailing-edge invocation, when one is scheduled, falls at
the end of the `wait` window, hence outside any 80 ms simulation; the claim
explicitly accepts leading-and-trailing behaviour.) -/
def throttleAux (wait : Nat) : Nat → List Nat → List Nat
  | _, [] => []
  | last, t :: rest =>
    if last + wait ≤ t then t :: throttleAux wait t rest
    else throttleAux wait last rest

/-- Invocation times of the throttled handler over a list of scroll-event
times: the first event invokes immediately (leading edge), the rest go
through `throttleAux`. -/
def throttleTimes (wait : Nat) : List Nat → List Nat
  | [] => []
  | t :: rest => t :: throttleAux wait t rest

/-- Events all within the window of the previous invocation are coalesced
into no further invocation. -/
theorem throttleAux_eq_nil (wait : Nat) (l : List Nat) :
    ∀ last : Nat, (∀ u ∈ l, u < last + wait) → throttleAux wait last l = [] := by
  induction l with
  | nil => intro last _; rfl
  | cons t rest ih =>
    intro last hall
    have ht := hall t (by simp)
    simp only [throttleAux]
    rw [if_neg (by omega)]
    exact ih last (fun u hu => hall u (by simp [hu]))

/-- Invocations emitted by `throttleAux` are at least `wait` after `last`
and pairwise at least `wait` apart. -/
theorem throttleAux_sep (wait : Nat) (l : List Nat) :
    ∀ last : Nat,
      (∀ u ∈ throttleAux wait last l, last + wait ≤ u) ∧
      (throttleAux wait last l).Pairwise (fun a b => a + wait ≤ b) := by
  induction l with
  | nil => intro last; exact ⟨by simp [throttleAux], by simp [throttleAux]⟩
  | cons t rest ih =>
    intro last
    by_cases h : last + wait ≤ t
    · simp only [throttleAux, if_pos h]
      obtain ⟨ih1, ih2⟩ := ih t
      constructor
      · intro u hu
        rcases List.mem_cons.mp hu with hu | hu
        · exact hu ▸ h
        · have := ih1 u hu; omega
      · exact List.pairwise_cons.mpr ⟨fun u hu => ih1 u hu, ih2⟩
    · simp only [throttleAux, if_neg h]
      exact ih last

/-- All invocation times are pairwise at least `wait` apart. -/
theorem throttleTimes_pairwise (wait : Nat) (events : List Nat) :
    (throttleTimes wait events).Pairwise (fun a b => a + wait ≤ b) := by
  cases events with
  | nil => simp [throttleTimes]
  | cons t rest =>
    simp only [throttleTimes]
    obtain ⟨h1, h2⟩ := throttleAux_sep wait rest t
    exact List.pairwise_cons.mpr ⟨fun u hu => h1 u hu, h2⟩

/-- A list whose entries are pairwise at least `wait` apart meets any
half-open window of length `wait` at most once. -/
theorem pairwise_sep_window (wait : Nat) (l : List Nat)
    (hl : l.Pairwise (fun a b => a + wait ≤ b)) (t0 : Nat) :
    l.countP (fun u => decide (t0 ≤ u ∧ u < t0 + wait)) ≤ 1 := by
  induction hl with
  | nil => simp
  | @cons a rest ha _ ih =>
    rw [List.countP_cons]
    by_cases hwin : t0 ≤ a ∧ a < t0 + wait
    · have hz : rest.countP (fun u => decide (t0 ≤ u ∧ u < t0 + wait)) = 0 :=
        List.countP_eq_zero.mpr (by
          intro u hu
          have := ha u hu
          simp only [decide_eq_true_eq]
          omega)
      have hd : decide (t0 ≤ a ∧ a < t0 + wait) = true := decide_eq_true hwin
      simp only [hz, hd]
      simp
    · have hd : decide (t0 ≤ a ∧ a < t0 + wait) = false := decide_eq_false hwin
      simp only [hd, Bool.false_eq_true, if_false, Nat.add_zero]
      exact ih

/-- C6: the active-heading recomputation is rate-limited — any 100 ms
window contains at most one invocation of the throttled handler, and in
particular any number of scroll events all within the first 80 ms trigger
at most one recomputation (leading edge; lodash's trailing edge, accepted
by the claim, falls at the end of the 100 ms window). -/
theorem throttle_rate_limit (events : List Nat) :
    ((∀ t ∈ events, t < 80) → (throttleTimes 100 events).length ≤ 1) ∧
    ∀ t0 : Nat,
      (throttleTimes 100 events).countP
        (fun u => decide (t0 ≤ u ∧ u < t0 + 100)) ≤ 1 := by
  constructor
  · intro hall
    cases events with
    | nil => simp [throttleTimes]
    | cons t rest =>
      simp only [throttleTimes]
      rw [throttleAux_eq_nil 100 rest t
        (fun u hu => by have := hall u (by simp [hu]); omega)]
      simp
  · intro t0
    exact pairwise_sep_window 100 (throttleTimes 100 events)
      (throttleTimes_pairwise 100 events) t0

/-- C6, witness: 50 scroll events inside 80 ms (at times 0–49) trigger
at most one recomputation. -/
theorem throttle_rate_limit_witness :
    (throttleTimes 100 (List.range 50)).length ≤ 1 :=
  (throttle_rate_limit (List.range 50)).1 (by decide)

/-! ## The effect cleanup (`doc.tsx` lines 246–251) -/

/-- State of the listeners and throttle installed by the effect: whether
the window scroll listener and the anchors' click listeners are attached,
whether a trailing throttle invocation is pending, and the TOC ref
(`tocEl.current`; `none` once React has detached the ref at unmount). -/
structure EffectState where
  scrollAttached : Bool
  clickAttached : Bool
  throttlePending : Bool
  tocRef : Option (List ScrollAnchor)
deriving DecidableEq, Repr

/-- The effect cleanup (`doc.tsx` lines 246–251): `removeEventListener` for
the window scroll listener and for every anchor's click listener.  It calls
neither `onScroll.cancel()` nor anything else touching the throttle timer,
so a pending trailing invocation stays scheduled, and it does not touch the
ref. -/
def cleanup (s : EffectState) : EffectState :=
  { s with scrollAttached := false, clickAttached := false }

/-- A scroll event: when the scroll listener is attached, the throttled
handler runs over the TOC ref; otherwise nothing at all happens. -/
def dispatchScroll (doc : String → Option Int) (vh : Int) (s : EffectState) :
    EffectState :=
  if s.scrollAttached then
    { s with tocRef := (onScrollHandler doc vh s.tocRef).1 }
  else s

/-- The trailing throttle timer firing: when an invocation is pending, the
handler body runs (behind its `tocEl.current === null` guard) and the
pending flag clears; the second component reports whether it threw. -/
def fireThrottleTimer (doc : String → Option Int) (vh : Int)
    (s : EffectState) : EffectState × Bool :=
  if s.throttlePending then
    let r := onScrollHandler doc vh s.tocRef
    ({ s with throttlePending := false, tocRef := r.1 }, r.2)
  else (s, false)

/-- C7, counterexample: the cleanup never cancels the throttle timer
(there is no `onScroll.cancel()` call in `doc.tsx` lines 246–251), so a
trailing invocation pending at detachment stays scheduled and does fire —
the state right after `cleanup` still has the timer pending, and the fire
is not a pure no-op (it consumes the pending invocation).  This refutes
"any in-flight throttle timer pending at detachment never fires".  The
firing touches no DOM, which is the amended claim. -/
theorem cleanup_timer_counterexample :
    (cleanup ⟨true, true, true, none⟩).throttlePending = true ∧
    fireThrottleTimer docOnlyB 600 (cleanup ⟨true, true, true, none⟩) ≠
      (cleanup ⟨true, true, true, none⟩, false) := by decide

/-- C7, amended: the cleanup removes the scroll listener and all click
listeners; a scroll event after cleanup changes nothing and raises no
error; and the *uncancelled* throttle timer, when it fires after unmount
(React has set the ref to `null`), mutates no DOM and throws no error,
thanks to the `tocEl.current === null` guard. -/
theorem cleanup_detaches_listeners (doc : String → Option Int) (vh : Int)
    (s : EffectState) (htoc : s.tocRef = none) :
    (cleanup s).scrollAttached = false ∧
    (cleanup s).clickAttached = false ∧
    dispatchScroll doc vh (cleanup s) = cleanup s ∧
    (fireThrottleTimer doc vh (cleanup s)).1.tocRef = none ∧
    (fireThrottleTimer doc vh (cleanup s)).2 = false := by
  refine ⟨rfl, rfl, ?_, ?_, ?_⟩
  · simp [dispatchScroll, cleanup]
  · by_cases hp : s.throttlePending <;>
      simp [fireThrottleTimer, cleanup, onScrollHandler, htoc, hp]
  · by_cases hp : s.throttlePending <;>
      simp [fireThrottleTimer, cleanup, onScrollHandler, htoc, hp]

/-- C7, amended, witness: concrete detached state with a pending
timer. -/
theorem cleanup_detaches_listeners_witness :
    (cleanup ⟨true, true, true, none⟩).scrollAttached = false ∧
    (cleanup ⟨true, true, true, none⟩).clickAttached = false ∧
    dispatchScroll docOnlyB 600 (cleanup ⟨true, true, true, none⟩) =
      cleanup ⟨true, true, true, none⟩ ∧
    (fireThrottleTimer docOnlyB 600 (cleanup ⟨true, true, true, none⟩)).1.tocRef = none ∧
    (fireThrottleTimer docOnlyB 600 (cleanup ⟨true, true, true, none⟩)).2 = false :=
  cleanup_detaches_listeners docOnlyB 600 ⟨true, true, true, none⟩ rfl

/-! ## Rendering rules (`doc.tsx` lines 254–260, 286–309) -/

/-- The rendered TOC panel: its computed `visibility` style and the markup
injected through `dangerouslySetInnerHTML`. -/
structure TocPanel where
  visibility : String
  innerHTML : String
deriving DecidableEq, Repr

/-- The `Toc` element of the render output (`doc.tsx` lines 305–309):
always present in the output (`some …`, in the same `Option` convention a
conditionally rendered section would use `none` for), with
`visibility: toc === false ? 'hidden' : 'visible'` and the
`tableOfContents` markup.  `toc` is the optional boolean frontmatter
field, so `toc === false` is `toc = some false`. -/
def renderToc (toc : Option Bool) (tableOfContents : String) : Option TocPanel :=
  some { visibility := if toc = some false then "hidden" else "visible",
         innerHTML := tableOfContents }

/-- C8: with `frontmatter.toc === false` the TOC panel is still rendered
(queryable, not removed) with its markup, but with visibility `hidden`; any
other value of `toc` (true or absent) yields visibility `visible`. -/
theorem renderToc_visibility (toc : Option Bool) (tableOfContents : String) :
    ∃ panel, renderToc toc tableOfContents = some panel ∧
      panel.innerHTML = tableOfContents ∧
      (panel.visibility = "hidden" ↔ toc = some false) ∧
      (toc ≠ some false → panel.visibility = "visible") := by
  have hvh : ("visible" : String) ≠ "hidden" := by decide
  refine ⟨{ visibility := if toc = some false then "hidden" else "visible",
            innerHTML := tableOfContents }, rfl, rfl, ?_, ?_⟩
  · by_cases h : toc = some false
    · simp [h]
    · rw [if_neg h]
      exact ⟨fun habs => absurd habs hvh, fun habs => absurd habs h⟩
  · intro h
    rw [if_neg h]

/-- C8, witness: with `toc` absent the panel is rendered visible with
its markup. -/
theorem renderToc_visibility_witness :
    ∃ panel, renderToc none "<ul></ul>" = some panel ∧
      panel.innerHTML = "<ul></ul>" ∧
      (panel.visibility = "hidden" ↔ (none : Option Bool) = some false) ∧
      ((none : Option Bool) ≠ some false → panel.visibility = "visible") :=
  renderToc_visibility none "<ul></ul>"

/-- JS truthiness of an optional string (`undefined`/`null` and the empty
string are falsy), as tested by `if (prevSlug && nextSlug)` in `doc.tsx`
lines 255–260 and by the render guard on line 286. -/
def jsTruthy (s : Option String) : Bool :=
  match s with
  | none => false
  | some str => !str.isEmpty

/-- The `justifyContent` computation, `doc.tsx` lines 254–260: start from
`'flex-start'`, reassign to `'space-between'` when both sibling slugs are
truthy, then to `'flex-end'` when only the next one is. -/
def justifyContent (prevSlug nextSlug : Option String) : String :=
  let j := "flex-start"
  let j := if jsTruthy prevSlug && jsTruthy nextSlug then "space-between" else j
  let j := if !jsTruthy prevSlug && jsTruthy nextSlug then "flex-end" else j
  j

/-- The render guard of the prev/next row, `doc.tsx` line 286:
`(prevSlug || nextSlug) && (...)`. -/
def docNavRendered (prevSlug nextSlug : Option String) : Bool :=
  jsTruthy prevSlug || jsTruthy nextSlug

/-- C9: the prev/next row is laid out `space-between` when both sibling
slugs are present, `flex-end` when only the next one is, `flex-start`
otherwise; and the row is rendered exactly when at least one sibling slug
is present. -/
theorem docNav_layout (prevSlug nextSlug : Option String) :
    (jsTruthy prevSlug = true → jsTruthy nextSlug = true →
      justifyContent prevSlug nextSlug = "space-between") ∧
    (jsTruthy prevSlug = false → jsTruthy nextSlug = true →
      justifyContent prevSlug nextSlug = "flex-end") ∧
    (jsTruthy nextSlug = false →
      justifyContent prevSlug nextSlug = "flex-start") ∧
    (docNavRendered prevSlug nextSlug = true ↔
      (jsTruthy prevSlug = true ∨ jsTruthy nextSlug = true)) := by
  cases hp : jsTruthy prevSlug <;> cases hn : jsTruthy nextSlug <;>
    simp [justifyContent, docNavRendered, hp, hn]

/-- C9, witness: with both siblings present the row is spaced apart. -/
theorem docNav_layout_witness :
    justifyContent (some "/prev") (some "/next") = "space-between" :=
  (docNav_layout (some "/prev") (some "/next")).1 (by decide) (by decide)

end DocTsx
